import Mathlib

/-!
Shallow embedding of `src/main.py`, a script that fetches accepted offers,
interview scorecards and candidate records from the Greenhouse REST API and
collates them into one JSON report keyed by offer id.

JSON values are modelled by the inductive type `Json`; Python dictionaries
whose keys are JSON values (the `scorecard_data`, `candidate_data` and
`scorecards_data_for_offers` dicts of the script) are modelled as association
lists with Python's insert-or-overwrite semantics.  HTTP traffic is modelled
by explicit response functions, and each fetch loop takes a fuel parameter:
a result of `none` means the loop did not terminate within the given fuel.
Fallible Python code (KeyError / TypeError / StopIteration / HTTPError)
is modelled with `Except String`.
-/

/-- JSON values, as produced by `response.json()` in the script. -/
inductive Json where
  | null
  | bool (b : Bool)
  | num (n : Int)
  | str (s : String)
  | arr (xs : List Json)
  | obj (fields : List (String × Json))
  deriving Repr, Inhabited

/-- Structural (Python `==`) equality test on JSON values. -/
def Json.beq : Json → Json → Bool
  | .null, .null => true
  | .bool a, .bool b => a == b
  | .num a, .num b => a == b
  | .str a, .str b => a == b
  | .arr [], .arr [] => true
  | .arr (a :: as), .arr (b :: bs) => Json.beq a b && Json.beq (.arr as) (.arr bs)
  | .obj [], .obj [] => true
  | .obj ((k1, v1) :: fs), .obj ((k2, v2) :: gs) =>
      k1 == k2 && Json.beq v1 v2 && Json.beq (.obj fs) (.obj gs)
  | _, _ => false
termination_by a _ => sizeOf a
decreasing_by all_goals simp_arith

theorem Json.beq_refl : ∀ (a : Json), Json.beq a a = true
  | .null => by simp [Json.beq]
  | .bool b => by simp [Json.beq]
  | .num n => by simp [Json.beq]
  | .str s => by simp [Json.beq]
  | .arr [] => by simp [Json.beq]
  | .arr (x :: xs) => by
      have h1 := Json.beq_refl x
      have h2 := Json.beq_refl (.arr xs)
      simp [Json.beq, h1, h2]
  | .obj [] => by simp [Json.beq]
  | .obj ((k, v) :: fs) => by
      have h1 := Json.beq_refl v
      have h2 := Json.beq_refl (.obj fs)
      simp [Json.beq, h1, h2]
termination_by a => sizeOf a
decreasing_by all_goals simp_arith

theorem Json.eq_of_beq : ∀ (a b : Json), Json.beq a b = true → a = b := by
  intro a b
  induction a, b using Json.beq.induct <;> (try simp_all [Json.beq]) <;>
    (intros; simp_all)

theorem Json.beq_iff (a b : Json) : Json.beq a b = true ↔ a = b :=
  ⟨Json.eq_of_beq a b, fun h => h ▸ Json.beq_refl a⟩

instance : DecidableEq Json := fun a b =>
  decidable_of_iff (Json.beq a b = true) (Json.beq_iff a b)

/-- Python truthiness (`if x:` / `if not x:`) on JSON values. -/
def Json.truthy : Json → Bool
  | .null => false
  | .bool b => b
  | .num n => n != 0
  | .str s => s != ""
  | .arr xs => !xs.isEmpty
  | .obj fs => !fs.isEmpty

/-- Python dictionary subscript `j[k]`: the value under key `k` of an object,
a `KeyError` if the key is missing, a `TypeError` if `j` is not an object. -/
def Json.getKey : Json → String → Except String Json
  | .obj fs, k =>
      match fs.find? (fun p => p.1 == k) with
      | some p => .ok p.2
      | none => .error ("KeyError: " ++ k)
  | _, _ => .error "TypeError: value is not subscriptable"

/-- Python idiom `j[k] if k in j else None` applied to an already-evaluated
object `j` (used for `interview_step`, `submitted_by`, `interviewer`,
`recruiter` with key `name` and for `source` with key `public_name`).
Membership `k in j` on a non-object raises `TypeError`. -/
def keyOrNull (j : Json) (k : String) : Except String Json :=
  match j with
  | .obj fs => .ok ((fs.find? (fun p => p.1 == k)).elim Json.null Prod.snd)
  | _ => .error "TypeError: argument is not iterable"

/-- Coerces a JSON value that the script iterates over to a list,
a `TypeError` otherwise. -/
def Json.asArr : Json → Except String (List Json)
  | .arr xs => .ok xs
  | _ => .error "TypeError: value is not iterable"

/-- Coerces a JSON value used in Python string concatenation to a string,
a `TypeError` otherwise. -/
def Json.asStr : Json → Except String String
  | .str s => .ok s
  | _ => .error "TypeError: value is not a string"

/-- Left-to-right effectful map, the meaning of a Python list comprehension
whose body may raise. -/
def mapME (f : Json → Except String Json) : List Json → Except String (List Json)
  | [] => .ok []
  | x :: xs => do
      let y ← f x
      let ys ← mapME f xs
      pure (y :: ys)

/-- A Python `dict` with JSON keys and values, as an association list. -/
abbrev JDict := List (Json × Json)

/-- Python dict read `d[k]` as an `Option` (`none` models `KeyError`). -/
def dictGet : JDict → Json → Option Json
  | [], _ => none
  | (k', v) :: rest, k => if Json.beq k' k then some v else dictGet rest k

/-- Python dict read `d[k]`, raising `KeyError` when the key is absent. -/
def dictGetE (d : JDict) (k : Json) : Except String Json :=
  match dictGet d k with
  | some v => .ok v
  | none => .error "KeyError: missing dict key"

/-- Python dict write `d[k] = v`: overwrites in place if the key is present,
appends otherwise. -/
def dictInsert : JDict → Json → Json → JDict
  | [], k, v => [(k, v)]
  | (k', v') :: rest, k, v =>
      if Json.beq k' k then (k', v) :: rest
      else (k', v') :: dictInsert rest k v

/-- The keys of a dict, in insertion order. -/
def dictKeys (d : JDict) : List Json := d.map Prod.fst

/-- An HTTP response as seen by the script: status code, the parsed
integral value of the Retry-After header when present, and the parsed
JSON body. -/
structure HttpResponse where
  status : Nat
  retryAfter : Option Int
  body : Json

/-- The error message carried by `requests.Response.raise_for_status`. -/
def httpError (status : Nat) : String := "HTTPError: status " ++ toString status

/-- One paginated fetch loop (the `while True` loops of
`get_greenhouse_accepted_offers` and `get_greenhouse_candidates`):
request page `page`, raise on a non-success status, stop on a falsy body,
otherwise extend the accumulator and move to the next page.  `responses`
maps a page number to the response for that page; the returned `List Nat`
is the request log (one entry per printed "Fetching ... page" line, in
order); `none` means the fuel ran out before the loop ended. -/
def fetchPages (responses : Nat → HttpResponse) :
    Nat → Nat → List Json → List Nat → Option (List Nat × Except String (List Json))
  | 0, _, _, _ => none
  | fuel + 1, page, acc, log =>
      let r := responses page
      if 400 ≤ r.status then some (log ++ [page], .error (httpError r.status))
      else if !r.body.truthy then some (log ++ [page], .ok acc)
      else
        match r.body.asArr with
        | .error e => some (log ++ [page], .error e)
        | .ok pageData => fetchPages responses fuel (page + 1) (acc ++ pageData) (log ++ [page])

/-- `get_greenhouse_accepted_offers`: fetch pages 1, 2, ... of `/offers`
until an empty page, concatenating the pages in order. -/
def get_greenhouse_accepted_offers (responses : Nat → HttpResponse) (fuel : Nat) :
    Option (List Nat × Except String (List Json)) :=
  fetchPages responses fuel 1 [] []

/-- The observable outcome of one `get_greenhouse_scorecards` call: the
returned body, the total time spent in `time.sleep`, and the number of
HTTP requests issued. -/
structure ScorecardFetch where
  body : Json
  totalWait : Int
  requests : Nat
  deriving Repr

/-- The body of `get_greenhouse_scorecards`: `responses n` is the response
to the n-th request (0-based) for this application's scorecards.  On 429 it
sleeps for the Retry-After value (10 when the header is absent) and retries;
on any other non-success status it raises; otherwise it returns the body,
with a falsy body replaced by the empty list. -/
def getScorecardsAux (responses : Nat → HttpResponse) :
    Nat → Nat → Int → Option (Except String ScorecardFetch)
  | 0, _, _ => none
  | fuel + 1, attempt, waited =>
      let r := responses attempt
      if r.status == 429 then
        getScorecardsAux responses fuel (attempt + 1) (waited + r.retryAfter.getD 10)
      else if 400 ≤ r.status then some (.error (httpError r.status))
      else some (.ok ⟨if r.body.truthy then r.body else Json.arr [], waited, attempt + 1⟩)

/-- `get_greenhouse_scorecards` for one application id. -/
def get_greenhouse_scorecards (responses : Nat → HttpResponse) (fuel : Nat) :
    Option (Except String ScorecardFetch) :=
  getScorecardsAux responses fuel 0 0

/-- The chunking line of `get_greenhouse_candidates`:
`[candidate_ids[i:i + 50] for i in range(0, len(candidate_ids), 50)]`. -/
def chunkList (ids : List Int) : List (List Int) :=
  (List.range' 0 ((ids.length + 49) / 50) 50).map (fun i => (ids.drop i).take 50)

/-- The outer `for chunk_of_candidate_ids in chunked_candidate_ids` loop of
`get_greenhouse_candidates`: each chunk runs the paginated fetch loop
(starting again at page 1), extending one shared accumulator. `capi` maps a
chunk (the `candidate_ids` filter) and a page number to the response. -/
def candidatesLoop (capi : List Int → Nat → HttpResponse) (fuel : Nat) :
    List (List Int) → List Json → Option (Except String (List Json))
  | [], acc => some (.ok acc)
  | chunk :: rest, acc =>
      match fetchPages (capi chunk) fuel 1 acc [] with
      | none => none
      | some (_, .error e) => some (.error e)
      | some (_, .ok acc') => candidatesLoop capi fuel rest acc'

/-- `get_greenhouse_candidates`: chunk the candidate ids into slices of 50
and run the paginated fetch for each chunk, concatenating everything. -/
def get_greenhouse_candidates (capi : List Int → Nat → HttpResponse)
    (ids : List Int) (fuel : Nat) : Option (Except String (List Json)) :=
  candidatesLoop capi fuel (chunkList ids) []

/-- `format_scorecard`: extract the fixed field subset of one scorecard and
reshape its question list into question/answer pairs. -/
def format_scorecard (scorecard : Json) : Except String Json := do
  let created_at ← scorecard.getKey "created_at"
  let interview ← scorecard.getKey "interview"
  let istep ← scorecard.getKey "interview_step"
  let interview_step ← keyOrNull istep "name"
  let subBy ← scorecard.getKey "submitted_by"
  let submitted_by ← keyOrNull subBy "name"
  let ivr ← scorecard.getKey "interviewer"
  let interviewer ← keyOrNull ivr "name"
  let overall ← scorecard.getKey "overall_recommendation"
  let attrsJ ← scorecard.getKey "attributes"
  let ratings ← scorecard.getKey "ratings"
  let qJ ← scorecard.getKey "questions"
  let qs ← qJ.asArr
  let questions ← mapME (fun q => do
      let question ← q.getKey "question"
      let answer ← q.getKey "answer"
      pure (Json.obj [("question", question), ("answer", answer)])) qs
  pure (Json.obj [
    ("created_at", created_at), ("interview", interview),
    ("interview_step", interview_step), ("submitted_by", submitted_by),
    ("interviewer", interviewer), ("overall_recommendation", overall),
    ("attributes", attrsJ), ("ratings", ratings),
    ("questions", Json.arr questions)])

/-- The generator expression
`next(app for app in candidate["applications"] if app["id"] == offer["application_id"])`:
returns the first application whose `id` equals `appId`, raises
`StopIteration` when the list is exhausted, and raises `KeyError` if an
application reached during the scan has no `id`. -/
def findApplication (appId : Json) : List Json → Except String Json
  | [] => .error "StopIteration"
  | app :: rest => do
      let i ← app.getKey "id"
      if Json.beq i appId then pure app else findApplication appId rest

/-- The conditional expression
`application["credited_to"]["name"] if application["credited_to"] else None`:
on a truthy `credited_to` value reads its `name` field (a `KeyError` if the
field is missing), otherwise evaluates to None. -/
def creditedName (credited : Json) : Except String Json :=
  if credited.truthy then credited.getKey "name" else pure Json.null

/-- The body of the collation loop for one offer, after the candidate has
been looked up (source lines 188-206): look up the scorecards under the
offer's application id, select the first matching application sub-record,
and build the collated output record. -/
def collateBody (candidate : Json) (sd : JDict) (offer : Json) :
    Except String (Json × Json) := do
  let appId ← offer.getKey "application_id"
  let scorecards ← dictGetE sd appId
  let appsJ ← candidate.getKey "applications"
  let apps ← appsJ.asArr
  let application ← findApplication appId apps
  let fn ← (← candidate.getKey "first_name").asStr
  let ln ← (← candidate.getKey "last_name").asStr
  let company ← candidate.getKey "company"
  let title ← candidate.getKey "title"
  let created_at ← candidate.getKey "created_at"
  let recruiter ← candidate.getKey "recruiter"
  let recruiter_name ← keyOrNull recruiter "name"
  let src ← application.getKey "source"
  let source ← keyOrNull src "public_name"
  let credited ← application.getKey "credited_to"
  let credited_to ← creditedName credited
  let jobsJ ← application.getKey "jobs"
  let jobsL ← jobsJ.asArr
  let jobs ← mapME (fun job => job.getKey "name") jobsL
  let prospective ← application.getKey "prospective_department"
  let scL ← scorecards.asArr
  let formatted ← mapME format_scorecard scL
  let oid ← offer.getKey "id"
  pure (oid, Json.obj [
    ("candidate_name", Json.str (fn ++ " " ++ ln)),
    ("candidate_data", Json.obj [
      ("company", company), ("title", title), ("created_at", created_at),
      ("recruiter_name", recruiter_name)]),
    ("application_id", appId),
    ("application_data", Json.obj [
      ("source", source), ("credited_to", credited_to),
      ("jobs", Json.arr jobs), ("prospective_department", prospective)]),
    ("scorecards_data", Json.arr formatted)])

/-- The collation loop body for one offer (source lines 187-206): look up
the candidate under the offer's candidate id, then collate. -/
def collateOffer (cd sd : JDict) (offer : Json) : Except String (Json × Json) := do
  let cid ← offer.getKey "candidate_id"
  let candidate ← dictGetE cd cid
  collateBody candidate sd offer

/-- The collation stage (`for offer in accepted_offers` at source line 186):
fold over the offers, writing one entry into `scorecards_data_for_offers`
per offer, keyed by the offer's id.  Any error aborts the run. -/
def collate (cd sd : JDict) : List Json → JDict → Except String JDict
  | [], out => .ok out
  | offer :: rest, out => do
      let p ← collateOffer cd sd offer
      collate cd sd rest (dictInsert out p.1 p.2)

/-- The `as_completed` collection loop of the concurrent scorecard phase:
the list argument is the sequence of application ids of the submitted
futures in completion order, and `fetch a` is the (fixed) outcome of
`process_offer(a)`.  A successful result is stored in `scorecard_data`
under its application id; an exception is caught, printed and dropped. -/
def buildScorecardData (fetch : Json → Except String Json) :
    List Json → JDict → JDict
  | [], d => d
  | appId :: rest, d =>
      match fetch appId with
      | .ok v => buildScorecardData fetch rest (dictInsert d appId v)
      | .error _ => buildScorecardData fetch rest d

/-- The `for candidate in candidates: candidate_data[candidate["id"]] = candidate`
loop: key every fetched candidate record by its id, later records
overwriting earlier ones. -/
def buildCandidateData : List Json → JDict → Except String JDict
  | [], d => .ok d
  | c :: rest, d => do
      let i ← c.getKey "id"
      buildCandidateData rest (dictInsert d i c)

section ExceptLemmas

variable {α β : Type}

@[simp] theorem ok_bind (a : α) (f : α → Except String β) :
    (Except.ok a >>= f) = f a := rfl

@[simp] theorem error_bind (e : String) (f : α → Except String β) :
    ((Except.error e : Except String α) >>= f) = .error e := rfl

@[simp] theorem pure_except (a : α) : (pure a : Except String α) = .ok a := rfl

theorem bind_ok_iff (x : Except String α) (f : α → Except String β) (b : β) :
    (x >>= f) = .ok b ↔ ∃ a, x = .ok a ∧ f a = .ok b := by
  cases x <;> simp

end ExceptLemmas

@[simp] theorem asArr_ok_iff (j : Json) (xs : List Json) :
    j.asArr = .ok xs ↔ j = .arr xs := by
  cases j <;> simp [Json.asArr]

@[simp] theorem asStr_ok_iff (j : Json) (s : String) :
    j.asStr = .ok s ↔ j = .str s := by
  cases j <;> simp [Json.asStr]

@[simp] theorem dictGetE_ok_iff (d : JDict) (k v : Json) :
    dictGetE d k = .ok v ↔ dictGet d k = some v := by
  unfold dictGetE
  cases h : dictGet d k <;> simp

theorem beq_true_iff (a b : Json) : Json.beq a b = true ↔ a = b := Json.beq_iff a b

theorem beq_false_iff (a b : Json) : Json.beq a b = false ↔ a ≠ b := by
  rw [← Bool.not_eq_true, not_iff_not]
  exact Json.beq_iff a b

theorem dictGet_insert_self (d : JDict) (k v : Json) :
    dictGet (dictInsert d k v) k = some v := by
  induction d with
  | nil => simp [dictGet, dictInsert, Json.beq_refl]
  | cons p rest ih =>
      obtain ⟨k', v'⟩ := p
      by_cases h : k' = k
      · simp [dictGet, dictInsert, h, Json.beq_refl]
      · simp only [dictInsert, Json.beq_iff]
        rw [if_neg h]
        simp [dictGet, Json.beq_iff, h, ih]

theorem dictGet_insert_ne (d : JDict) (k v k' : Json) (h : k' ≠ k) :
    dictGet (dictInsert d k v) k' = dictGet d k' := by
  induction d with
  | nil => simp [dictGet, dictInsert, Json.beq_iff, Ne.symm h]
  | cons p rest ih =>
      obtain ⟨a, b⟩ := p
      by_cases ha : a = k
      · subst ha
        simp [dictInsert, dictGet, Json.beq_refl, Json.beq_iff, Ne.symm h]
      · simp [dictInsert, dictGet, Json.beq_iff, ha, ih]

theorem dictGet_isSome_iff (d : JDict) (k : Json) :
    (dictGet d k).isSome ↔ k ∈ dictKeys d := by
  induction d with
  | nil => simp [dictGet, dictKeys]
  | cons p rest ih =>
      obtain ⟨a, b⟩ := p
      by_cases h : a = k
      · simp [dictGet, dictKeys, Json.beq_iff, h]
      · simp [dictGet, dictKeys, Json.beq_iff, h, ih, Ne.symm h]

theorem dictKeys_insert (d : JDict) (k v : Json) :
    dictKeys (dictInsert d k v) =
      if k ∈ dictKeys d then dictKeys d else dictKeys d ++ [k] := by
  induction d with
  | nil => simp [dictInsert, dictKeys]
  | cons p rest ih =>
      obtain ⟨a, b⟩ := p
      by_cases h : a = k
      · subst h
        simp [dictInsert, dictKeys, Json.beq_refl]
      · have hins : dictInsert ((a, b) :: rest) k v = (a, b) :: dictInsert rest k v := by
          simp [dictInsert, Json.beq_iff, h]
        have hk1 : dictKeys ((a, b) :: dictInsert rest k v)
            = a :: dictKeys (dictInsert rest k v) := rfl
        have hk2 : dictKeys ((a, b) :: rest) = a :: dictKeys rest := rfl
        rw [hins, hk1, hk2, ih]
        by_cases hm : k ∈ dictKeys rest
        · simp [hm]
        · have hnm : ¬ k ∈ a :: dictKeys rest := by simp [hm, Ne.symm h]
          simp [hm, hnm]

theorem dictKeys_insert_nodup (d : JDict) (k v : Json)
    (h : (dictKeys d).Nodup) : (dictKeys (dictInsert d k v)).Nodup := by
  rw [dictKeys_insert]
  by_cases hm : k ∈ dictKeys d
  · simp [hm, h]
  · simp only [hm, if_false]
    simp [List.nodup_append, h, hm]

theorem dictGet_insert_isSome (d : JDict) (k v k' : Json) :
    (dictGet (dictInsert d k v) k').isSome ↔ k' = k ∨ (dictGet d k').isSome := by
  by_cases h : k' = k
  · subst h
    simp [dictGet_insert_self]
  · simp [dictGet_insert_ne d k v k' h, h]

theorem dictInsert_length (d : JDict) (k v : Json) :
    (dictInsert d k v).length =
      if (dictGet d k).isSome then d.length else d.length + 1 := by
  induction d with
  | nil => simp [dictInsert, dictGet]
  | cons p rest ih =>
      obtain ⟨a, b⟩ := p
      by_cases h : a = k
      · simp [dictInsert, dictGet, Json.beq_iff, h]
      · simp only [dictInsert, dictGet, Json.beq_iff]
        rw [if_neg h, if_neg h]
        by_cases hs : (dictGet rest k).isSome
        · simp [hs, ih]
        · simp [hs, ih]

theorem buildScorecardData_get_ok (fetch : Json → Except String Json)
    (l : List Json) (d : JDict) (a v : Json) (hv : fetch a = .ok v) :
    dictGet (buildScorecardData fetch l d) a
      = if a ∈ l then some v else dictGet d a := by
  induction l generalizing d with
  | nil => simp [buildScorecardData]
  | cons b rest ih =>
      by_cases hab : a = b
      · subst hab
        rw [buildScorecardData, hv]
        rw [ih (dictInsert d a v)]
        by_cases hm : a ∈ rest <;> simp [hm, dictGet_insert_self]
      · cases hfb : fetch b with
        | ok w =>
            simp [buildScorecardData, hfb, ih, dictGet_insert_ne d b w a hab, hab]
        | error e =>
            simp [buildScorecardData, hfb, ih, hab]

theorem buildScorecardData_get_error (fetch : Json → Except String Json)
    (l : List Json) (d : JDict) (a : Json) (e : String) (he : fetch a = .error e) :
    dictGet (buildScorecardData fetch l d) a = dictGet d a := by
  induction l generalizing d with
  | nil => simp [buildScorecardData]
  | cons b rest ih =>
      by_cases hab : a = b
      · subst hab
        simp [buildScorecardData, he, ih]
      · cases hfb : fetch b with
        | ok w =>
            simp [buildScorecardData, hfb, ih, dictGet_insert_ne d b w a hab]
        | error e2 =>
            simp [buildScorecardData, hfb, ih]

theorem buildScorecardData_get (fetch : Json → Except String Json)
    (l : List Json) (k : Json) :
    dictGet (buildScorecardData fetch l []) k =
      if k ∈ l ∧ ((fetch k).toOption.isSome) then (fetch k).toOption else none := by
  cases hf : fetch k with
  | ok v =>
      rw [buildScorecardData_get_ok fetch l [] k v hf]
      by_cases hm : k ∈ l <;> simp [hm, hf, Except.toOption, dictGet]
  | error e =>
      rw [buildScorecardData_get_error fetch l [] k e hf]
      simp [hf, Except.toOption, dictGet]

theorem buildScorecardData_length (fetch : Json → Except String Json)
    (l : List Json) (d : JDict) (hl : l.Nodup) (hd : ∀ a ∈ l, dictGet d a = none) :
    (buildScorecardData fetch l d).length
      = d.length + l.countP (fun a => (fetch a).toOption.isSome) := by
  induction l generalizing d with
  | nil => simp [buildScorecardData]
  | cons b rest ih =>
      have hb : dictGet d b = none := hd b (List.mem_cons_self b rest)
      obtain ⟨hbnot, hrest⟩ := List.nodup_cons.mp hl
      cases hfb : fetch b with
      | ok w =>
          have hfresh : ∀ a ∈ rest, dictGet (dictInsert d b w) a = none := by
            intro a ha
            have hab : a ≠ b := fun hh => hbnot (hh ▸ ha)
            rw [dictGet_insert_ne _ _ _ _ hab]
            exact hd a (List.mem_cons_of_mem _ ha)
          rw [buildScorecardData, hfb, ih _ hrest hfresh, dictInsert_length,
            List.countP_cons]
          simp [hb, hfb, Except.toOption]
          omega
      | error e =>
          have hfresh : ∀ a ∈ rest, dictGet d a = none := by
            intro a ha
            exact hd a (List.mem_cons_of_mem _ ha)
          rw [buildScorecardData, hfb, ih _ hrest hfresh, List.countP_cons]
          simp [hfb, Except.toOption]

theorem countP_all_but_one (l : List Json) (afail : Json) (p : Json → Bool)
    (hf : p afail = false) (ht : ∀ a ∈ l, a ≠ afail → p a = true)
    (hnd : l.Nodup) (hm : afail ∈ l) :
    l.countP p = l.length - 1 := by
  induction l with
  | nil => cases hm
  | cons b rest ih =>
      obtain ⟨hbn, hrest⟩ := List.nodup_cons.mp hnd
      rw [List.countP_cons]
      by_cases hb : b = afail
      · subst hb
        have hall : rest.countP p = rest.length :=
          List.countP_eq_length.mpr (fun a ha =>
            ht a (List.mem_cons_of_mem _ ha) (fun hh => hbn (hh ▸ ha)))
        simp [hf, hall]
      · have hmem : afail ∈ rest := by
          cases List.mem_cons.mp hm with
          | inl hh => exact absurd hh.symm hb
          | inr hh => exact hh
        have hpos : 0 < rest.length := List.length_pos.mpr (List.ne_nil_of_mem hmem)
        have hpb : p b = true := ht b (List.mem_cons_self _ _) hb
        have hcnt := ih (fun a ha hne => ht a (List.mem_cons_of_mem _ ha) hne) hrest hmem
        simp [hpb, hcnt]
        omega

/-- Claim C3: in the concurrent scorecard phase, if the single task for
application id `afail` raises and every other task succeeds, then for any
completion order the failed id is absent from `scorecard_data`, every other
submitted id is present with its fetched value, the populated keys are
exactly the other submitted ids, and (for distinct application ids) the
mapping holds the results of the other N-1 tasks. -/
theorem c3_partial_failure
    (fetch : Json → Except String Json) (order : List Json) (afail : Json)
    (e : String) (hfail : fetch afail = .error e)
    (hok : ∀ a, a ≠ afail → ∃ v, fetch a = .ok v) :
    dictGet (buildScorecardData fetch order []) afail = none
    ∧ (∀ a ∈ order, a ≠ afail →
        dictGet (buildScorecardData fetch order []) a = (fetch a).toOption)
    ∧ (∀ k, (dictGet (buildScorecardData fetch order []) k).isSome
        ↔ (k ∈ order ∧ k ≠ afail))
    ∧ (order.Nodup → afail ∈ order →
        (buildScorecardData fetch order []).length = order.length - 1) := by
  refine ⟨?_, ?_, ?_, ?_⟩
  · rw [buildScorecardData_get_error fetch order [] afail e hfail]
    simp [dictGet]
  · intro a ha hne
    obtain ⟨v, hv⟩ := hok a hne
    rw [buildScorecardData_get_ok fetch order [] a v hv]
    simp [ha, hv, Except.toOption]
  · intro k
    by_cases hk : k = afail
    · subst hk
      rw [buildScorecardData_get_error fetch order [] k e hfail]
      simp [dictGet]
    · obtain ⟨v, hv⟩ := hok k hk
      rw [buildScorecardData_get_ok fetch order [] k v hv]
      by_cases hm : k ∈ order <;> simp [hm, hk, dictGet]
  · intro hnd hmem
    rw [buildScorecardData_length fetch order [] hnd (by intro a ha; simp [dictGet])]
    simp only [List.length_nil, Nat.zero_add]
    refine countP_all_but_one order afail _ ?_ ?_ hnd hmem
    · simp [hfail, Except.toOption]
    · intro a ha hne
      obtain ⟨v, hv⟩ := hok a hne
      simp [hv, Except.toOption]

theorem collateBody_congr (c : Json) (sd1 sd2 : JDict) (o : Json)
    (h : ∀ k, dictGet sd1 k = dictGet sd2 k) :
    collateBody c sd1 o = collateBody c sd2 o := by
  simp only [collateBody, dictGetE, h]

theorem collateOffer_congr (cd sd1 sd2 : JDict) (o : Json)
    (h : ∀ k, dictGet sd1 k = dictGet sd2 k) :
    collateOffer cd sd1 o = collateOffer cd sd2 o := by
  simp only [collateOffer]
  simp only [show ∀ c o', collateBody c sd1 o' = collateBody c sd2 o' from
    fun c o' => collateBody_congr c sd1 sd2 o' h]

theorem collate_congr (cd sd1 sd2 : JDict)
    (h : ∀ k, dictGet sd1 k = dictGet sd2 k) :
    ∀ (offers : List Json) (acc : JDict),
      collate cd sd1 offers acc = collate cd sd2 offers acc
  | [], _ => rfl
  | o :: rest, acc => by
      rw [collate, collate, collateOffer_congr cd sd1 sd2 o h]
      cases hp : collateOffer cd sd2 o with
      | error e => simp
      | ok p => simp [collate_congr cd sd1 sd2 h rest (dictInsert acc p.1 p.2)]

/-- Claim C9: with fixed per-application fetch results, any two completion
orders of the scorecard tasks (permutations of each other) produce
extensionally equal `scorecard_data` mappings, and hence the same final
collated report. -/
theorem c9_order_determinism
    (fetch : Json → Except String Json) (l1 l2 : List Json) (hperm : l1.Perm l2)
    (cd : JDict) (offers : List Json) (acc : JDict) :
    (∀ k, dictGet (buildScorecardData fetch l1 []) k
        = dictGet (buildScorecardData fetch l2 []) k)
    ∧ collate cd (buildScorecardData fetch l1 []) offers acc
        = collate cd (buildScorecardData fetch l2 []) offers acc := by
  have hget : ∀ k, dictGet (buildScorecardData fetch l1 []) k
      = dictGet (buildScorecardData fetch l2 []) k := by
    intro k
    rw [buildScorecardData_get, buildScorecardData_get]
    simp [hperm.mem_iff]
  exact ⟨hget, collate_congr cd _ _ hget offers acc⟩

/-- Tests whether a fetched candidate record carries the id `cid`
(the key under which the `candidate_data` loop would store it). -/
def idIs (cid : Json) (c : Json) : Bool :=
  match c.getKey "id" with
  | .ok i => Json.beq i cid
  | .error _ => false

theorem buildCandidateData_get (l : List Json) :
    ∀ (d cd : JDict), buildCandidateData l d = .ok cd → ∀ (k : Json),
    dictGet cd k = ((l.filter (idIs k)).getLast?).elim (dictGet d k) some := by
  induction l with
  | nil =>
      intro d cd hb k
      simp [buildCandidateData] at hb
      subst hb
      simp
  | cons c rest ih =>
      intro d cd hb k
      rw [buildCandidateData] at hb
      cases hid : c.getKey "id" with
      | error e => rw [hid] at hb; simp at hb
      | ok i =>
          rw [hid, ok_bind] at hb
          have hrec := ih (dictInsert d i c) cd hb k
          by_cases hik : i = k
          · subst hik
            have hfil : (c :: rest).filter (idIs i) = c :: rest.filter (idIs i) := by
              simp [List.filter_cons, idIs, hid, Json.beq_refl]
            rw [hfil]
            cases hl : (rest.filter (idIs i)).getLast? with
            | some c' =>
                rw [hrec, hl]
                have hgl : (c :: rest.filter (idIs i)).getLast? = some c' := by
                  cases hfe : rest.filter (idIs i) with
                  | nil => rw [hfe] at hl; simp at hl
                  | cons x xs =>
                      rw [hfe] at hl
                      rw [List.getLast?_cons_cons, hl]
                rw [hgl]
                simp
            | none =>
              rw [hrec, hl]
              have hfe : rest.filter (idIs i) = [] := by
                cases hfe2 : rest.filter (idIs i) with
                | nil => rfl
                | cons x xs =>
                    rw [hfe2] at hl
                    have := List.getLast?_isSome.mpr (List.cons_ne_nil x xs)
                    rw [hl] at this
                    simp at this
              rw [hfe]
              simp [dictGet_insert_self]
          · have hfil : (c :: rest).filter (idIs k) = rest.filter (idIs k) := by
              have : idIs k c = false := by
                simp [idIs, hid]
                exact beq_false_iff i k |>.mpr hik
              simp [List.filter_cons, this]
            rw [hfil, hrec]
            cases (rest.filter (idIs k)).getLast? with
            | some c' => simp
            | none =>
                simp [dictGet_insert_ne d i c k (Ne.symm hik)]

/-- Claim C10: when the fetched candidate list has several records with the
same id, `candidate_data` keeps only the last such record in fetch order,
and the collation of any offer with that candidate id reads the candidate
fields from that last record. -/
theorem c10_last_candidate_wins
    (candidates : List Json) (cd : JDict)
    (hbuild : buildCandidateData candidates [] = .ok cd)
    (cid lastRec : Json)
    (hlast : (candidates.filter (idIs cid)).getLast? = some lastRec)
    (sd : JDict) (offer : Json)
    (hcid : offer.getKey "candidate_id" = .ok cid) :
    dictGet cd cid = some lastRec
    ∧ collateOffer cd sd offer = collateBody lastRec sd offer := by
  have hget : dictGet cd cid = some lastRec := by
    rw [buildCandidateData_get candidates [] cd hbuild cid, hlast]
    simp
  refine ⟨hget, ?_⟩
  simp [collateOffer, hcid, dictGetE, hget]

theorem fetchPages_ok (responses : Nat → HttpResponse) :
    ∀ (pages : List (List Json)) (start fuel : Nat) (acc : List Json) (log : List Nat),
    (∀ p ∈ pages, p ≠ []) →
    (∀ i (h : i < pages.length),
      responses (start + i) = ⟨200, none, Json.arr (pages.get ⟨i, h⟩)⟩) →
    responses (start + pages.length) = ⟨200, none, Json.arr []⟩ →
    pages.length + 1 ≤ fuel →
    fetchPages responses fuel start acc log
      = some (log ++ List.range' start (pages.length + 1), .ok (acc ++ pages.flatten)) := by
  intro pages
  induction pages with
  | nil =>
      intro start fuel acc log hne hok hlast hfuel
      cases fuel with
      | zero => omega
      | succ f =>
          simp only [List.length_nil, Nat.add_zero] at hlast
          rw [fetchPages]
          simp [hlast, Json.truthy, List.range']
  | cons p ps ih =>
      intro start fuel acc log hne hok hlast hfuel
      cases fuel with
      | zero => omega
      | succ f =>
          have h0 : responses start = ⟨200, none, .arr p⟩ := by
            have h := hok 0 (by simp)
            simpa using h
          have hpne : p ≠ [] := hne p (List.mem_cons_self _ _)
          have hne' : ∀ q ∈ ps, q ≠ [] := fun q hq => hne q (List.mem_cons_of_mem _ hq)
          have hok' : ∀ i (h : i < ps.length),
              responses (start + 1 + i) = ⟨200, none, Json.arr (ps.get ⟨i, h⟩)⟩ := by
            intro i h
            have hh := hok (i + 1) (by simp; omega)
            rw [show start + (i + 1) = start + 1 + i from by omega] at hh
            simpa using hh
          have hlast' : responses (start + 1 + ps.length) = ⟨200, none, Json.arr []⟩ := by
            rw [show start + 1 + ps.length = start + (p :: ps).length from by simp; omega] at *
            exact hlast
          rw [fetchPages]
          simp only [h0]
          rw [if_neg (by simp)]
          have htr : (Json.arr p).truthy = true := by
            simp [Json.truthy, hpne]
          simp only [htr, Bool.not_true, Bool.false_eq_true, if_false, Json.asArr]
          rw [ih (start + 1) f (acc ++ p) (log ++ [start]) hne' hok' hlast' (by simp at hfuel; omega)]
          simp [List.range'_succ]

theorem fetchPages_error (responses : Nat → HttpResponse) :
    ∀ (pages : List (List Json)) (m start fuel : Nat) (acc : List Json)
      (log : List Nat) (status : Nat),
    m ≤ pages.length →
    (∀ p ∈ pages, p ≠ []) →
    (∀ i (h : i < pages.length), i < m →
      responses (start + i) = ⟨200, none, Json.arr (pages.get ⟨i, h⟩)⟩) →
    (responses (start + m)).status = status →
    400 ≤ status →
    m + 1 ≤ fuel →
    fetchPages responses fuel start acc log
      = some (log ++ List.range' start (m + 1), .error (httpError status)) := by
  intro pages
  induction pages with
  | nil =>
      intro m start fuel acc log status hm hne hok hs h400 hfuel
      have hm0 : m = 0 := by simpa using hm
      subst hm0
      cases fuel with
      | zero => omega
      | succ f =>
          rw [Nat.add_zero] at hs
          rw [fetchPages]
          simp [hs, h400, List.range']
  | cons p ps ih =>
      intro m start fuel acc log status hm hne hok hs h400 hfuel
      cases fuel with
      | zero => omega
      | succ f =>
          cases m with
          | zero =>
              rw [Nat.add_zero] at hs
              rw [fetchPages]
              simp [hs, h400, List.range']
          | succ m' =>
              have h0 : responses start = ⟨200, none, .arr p⟩ := by
                have h := hok 0 (by simp) (by omega)
                simpa using h
              have hpne : p ≠ [] := hne p (List.mem_cons_self _ _)
              have hne' : ∀ q ∈ ps, q ≠ [] := fun q hq => hne q (List.mem_cons_of_mem _ hq)
              have hok' : ∀ i (h : i < ps.length), i < m' →
                  responses (start + 1 + i) = ⟨200, none, Json.arr (ps.get ⟨i, h⟩)⟩ := by
                intro i h him
                have hh := hok (i + 1) (by simp; omega) (by omega)
                rw [show start + (i + 1) = start + 1 + i from by omega] at hh
                simpa using hh
              have hs' : (responses (start + 1 + m')).status = status := by
                rw [show start + 1 + m' = start + (m' + 1) from by omega]
                exact hs
              rw [fetchPages]
              simp only [h0]
              rw [if_neg (by simp)]
              have htr : (Json.arr p).truthy = true := by
                simp [Json.truthy, hpne]
              simp only [htr, Bool.not_true, Bool.false_eq_true, if_false, Json.asArr]
              rw [ih m' (start + 1) f (acc ++ p) (log ++ [start]) status
                (by simp at hm; omega) hne' hok' hs' h400 (by omega)]
              simp [List.range'_succ]

/-- Claim C2: for a response sequence of k non-empty pages followed by an
empty page, `get_greenhouse_accepted_offers` requests pages 1, 2, ..., k+1
in order and returns the concatenation of the pages in page order, with
exactly the sum of the page sizes many records; and if instead any of those
requests answers with a non-success HTTP status, the failure propagates. -/
theorem c2_paginated_offer_fetch
    (pages : List (List Json)) (responses : Nat → HttpResponse)
    (hne : ∀ p ∈ pages, p ≠ [])
    (hok : ∀ i (h : i < pages.length),
      responses (i + 1) = ⟨200, none, Json.arr (pages.get ⟨i, h⟩)⟩)
    (hlast : responses (pages.length + 1) = ⟨200, none, Json.arr []⟩) :
    get_greenhouse_accepted_offers responses (pages.length + 1)
        = some (List.range' 1 (pages.length + 1), .ok pages.flatten)
    ∧ pages.flatten.length = (pages.map List.length).sum
    ∧ ∀ (responses2 : Nat → HttpResponse) (j status : Nat),
        1 ≤ j → j ≤ pages.length + 1 → 400 ≤ status →
        (∀ i, 1 ≤ i → i < j → responses2 i = responses i) →
        (responses2 j).status = status →
        get_greenhouse_accepted_offers responses2 (pages.length + 1)
          = some (List.range' 1 j, .error (httpError status)) := by
  refine ⟨?_, ?_, ?_⟩
  · rw [get_greenhouse_accepted_offers,
      fetchPages_ok responses pages 1 (pages.length + 1) [] [] hne
        (by intro i h; rw [show (1 : Nat) + i = i + 1 from by omega]; exact hok i h)
        (by rw [show (1 : Nat) + pages.length = pages.length + 1 from by omega]; exact hlast)
        (le_refl _)]
    simp
  · simp
  · intro responses2 j status hj1 hj2 h400 hagree hstat
    rw [get_greenhouse_accepted_offers,
      fetchPages_error responses2 pages (j - 1) 1 (pages.length + 1) [] [] status
        (by omega) hne
        (by
          intro i h him
          rw [show (1 : Nat) + i = i + 1 from by omega, hagree (i + 1) (by omega) (by omega)]
          exact hok i h)
        (by rw [show (1 : Nat) + (j - 1) = j from by omega]; exact hstat)
        h400 (by omega)]
    rw [show j - 1 + 1 = j from by omega]
    simp

theorem range'_shift (m : Nat) : ∀ (s step : Nat),
    List.range' (s + step) m step = (List.range' s m step).map (· + step) := by
  induction m with
  | zero => intro s step; rfl
  | succ n ih =>
      intro s step
      rw [List.range'_succ, List.range'_succ, List.map_cons, ih (s + step) step]

theorem chunkList_cons (xs : List Int) (h : xs ≠ []) :
    chunkList xs = xs.take 50 :: chunkList (xs.drop 50) := by
  have hpos : 1 ≤ xs.length := List.length_pos.mpr h
  have hlen : (xs.length + 49) / 50 = ((xs.drop 50).length + 49) / 50 + 1 := by
    simp only [List.length_drop]
    omega
  rw [chunkList, hlen, List.range'_succ, List.map_cons]
  rw [show (0 : Nat) + 50 = 0 + 50 from rfl, range'_shift, List.map_map]
  rw [chunkList]
  simp only [List.drop_zero, Function.comp]
  congr 1
  apply List.map_congr_left
  intro i _
  simp only [Function.comp_apply]
  rw [show i + 50 = 50 + i from by omega, ← List.drop_drop]

theorem chunkList_flatten : ∀ (xs : List Int), (chunkList xs).flatten = xs
  | [] => by simp [chunkList]
  | x :: rest => by
      rw [chunkList_cons (x :: rest) (by simp)]
      rw [List.flatten_cons, chunkList_flatten ((x :: rest).drop 50)]
      exact List.take_append_drop 50 (x :: rest)
termination_by xs => xs.length
decreasing_by
  simp only [List.length_drop, List.length_cons]
  omega

theorem candidatesLoop_ok (capi : List Int → Nat → HttpResponse)
    (pagesOf : List Int → List (List Json)) (fuel : Nat) :
    ∀ (chunks : List (List Int)) (acc : List Json),
    (∀ chunk ∈ chunks, ∀ p ∈ pagesOf chunk, p ≠ []) →
    (∀ chunk ∈ chunks, ∀ i (h : i < (pagesOf chunk).length),
      capi chunk (i + 1) = ⟨200, none, Json.arr ((pagesOf chunk).get ⟨i, h⟩)⟩) →
    (∀ chunk ∈ chunks,
      capi chunk ((pagesOf chunk).length + 1) = ⟨200, none, Json.arr []⟩) →
    (∀ chunk ∈ chunks, (pagesOf chunk).length + 1 ≤ fuel) →
    candidatesLoop capi fuel chunks acc
      = some (.ok (acc ++ (chunks.map (fun c => (pagesOf c).flatten)).flatten)) := by
  intro chunks
  induction chunks with
  | nil =>
      intro acc _ _ _ _
      simp [candidatesLoop]
  | cons c cs ih =>
      intro acc hne hok hlast hfuel
      have hmem : c ∈ c :: cs := List.mem_cons_self _ _
      rw [candidatesLoop,
        fetchPages_ok (capi c) (pagesOf c) 1 fuel acc []
          (hne c hmem)
          (by
            intro i h
            rw [show (1 : Nat) + i = i + 1 from by omega]
            exact hok c hmem i h)
          (by
            rw [show (1 : Nat) + (pagesOf c).length = (pagesOf c).length + 1 from by omega]
            exact hlast c hmem)
          (hfuel c hmem)]
      have hstep := ih (acc ++ (pagesOf c).flatten)
        (fun x hx => hne x (List.mem_cons_of_mem _ hx))
        (fun x hx => hok x (List.mem_cons_of_mem _ hx))
        (fun x hx => hlast x (List.mem_cons_of_mem _ hx))
        (fun x hx => hfuel x (List.mem_cons_of_mem _ hx))
      simp only [hstep, List.map_cons, List.flatten_cons, List.append_assoc]

/-- Claim C8: `get_greenhouse_candidates` splits the candidate id list into
exactly ceil(len/50) chunks of at most 50 ids each, preserving input order
within and across chunks with no deduplication, and returns the
concatenation across chunks of the records the API answers for each
chunk. -/
theorem c8_candidate_chunking
    (ids : List Int) (capi : List Int → Nat → HttpResponse)
    (pagesOf : List Int → List (List Json)) (fuel : Nat)
    (hne : ∀ chunk ∈ chunkList ids, ∀ p ∈ pagesOf chunk, p ≠ [])
    (hok : ∀ chunk ∈ chunkList ids, ∀ i (h : i < (pagesOf chunk).length),
      capi chunk (i + 1) = ⟨200, none, Json.arr ((pagesOf chunk).get ⟨i, h⟩)⟩)
    (hlast : ∀ chunk ∈ chunkList ids,
      capi chunk ((pagesOf chunk).length + 1) = ⟨200, none, Json.arr []⟩)
    (hfuel : ∀ chunk ∈ chunkList ids, (pagesOf chunk).length + 1 ≤ fuel) :
    (chunkList ids).length = (ids.length + 49) / 50
    ∧ (∀ chunk ∈ chunkList ids, chunk.length ≤ 50)
    ∧ (chunkList ids).flatten = ids
    ∧ get_greenhouse_candidates capi ids fuel
        = some (.ok (((chunkList ids).map (fun c => (pagesOf c).flatten)).flatten)) := by
  refine ⟨?_, ?_, chunkList_flatten ids, ?_⟩
  · simp [chunkList]
  · intro chunk hc
    rw [chunkList] at hc
    obtain ⟨i, _, rfl⟩ := List.mem_map.mp hc
    exact List.length_take_le 50 _
  · rw [get_greenhouse_candidates,
      candidatesLoop_ok capi pagesOf fuel (chunkList ids) [] hne hok hlast hfuel]
    simp

theorem getScorecardsAux_allFail (responses : Nat → HttpResponse) :
    ∀ (fuel attempt : Nat) (waited : Int),
    (∀ i, i < fuel → (responses (attempt + i)).status = 429) →
    getScorecardsAux responses fuel attempt waited = none := by
  intro fuel
  induction fuel with
  | zero => intro attempt waited _; rfl
  | succ f ih =>
      intro attempt waited h429
      have h0 : (responses attempt).status = 429 := by
        simpa using h429 0 (by omega)
      rw [getScorecardsAux]
      simp only [h0, beq_self_eq_true, if_true]
      exact ih (attempt + 1) _ (fun i hi => by
        have hh := h429 (i + 1) (by omega)
        rwa [show attempt + (i + 1) = attempt + 1 + i from by omega] at hh)

theorem getScorecardsAux_succeeds (responses : Nat → HttpResponse) :
    ∀ (n attempt : Nat) (waited : Int),
    (∀ i, i < n → (responses (attempt + i)).status = 429) →
    (responses (attempt + n)).status = 200 →
    ∃ w, getScorecardsAux responses (n + 1) attempt waited
      = some (.ok ⟨if (responses (attempt + n)).body.truthy
                     then (responses (attempt + n)).body else Json.arr [],
                   w, attempt + n + 1⟩) := by
  intro n
  induction n with
  | zero =>
      intro attempt waited h429 h200
      rw [Nat.add_zero] at h200
      refine ⟨waited, ?_⟩
      rw [getScorecardsAux]
      simp [h200]
  | succ m ih =>
      intro attempt waited h429 h200
      have h0 : (responses attempt).status = 429 := by
        simpa using h429 0 (by omega)
      obtain ⟨w, hw⟩ := ih (attempt + 1)
        (waited + (responses attempt).retryAfter.getD 10)
        (fun i hi => by
          have hh := h429 (i + 1) (by omega)
          rwa [show attempt + (i + 1) = attempt + 1 + i from by omega] at hh)
        (by rwa [show attempt + 1 + m = attempt + (m + 1) from by omega])
      refine ⟨w, ?_⟩
      rw [show attempt + (m + 1) = attempt + 1 + m from by omega]
      rw [getScorecardsAux]
      simp only [h0, beq_self_eq_true, if_true]
      exact hw

/-- Claim C7: the 429 retry of `get_greenhouse_scorecards` is unbounded.
For every n, a sequence of n rate-limited responses followed by a success
makes the fetcher issue exactly n+1 requests and return the final body
(and no smaller fuel bound suffices); and on a response sequence that is
429 forever, the fetcher never terminates (it exhausts every fuel). -/
theorem c7_unbounded_retry :
    (∀ (n : Nat) (responses : Nat → HttpResponse),
      (∀ i, i < n → (responses i).status = 429) →
      (responses n).status = 200 →
      (∃ w, get_greenhouse_scorecards responses (n + 1)
          = some (.ok ⟨if (responses n).body.truthy then (responses n).body
                         else Json.arr [],
                       w, n + 1⟩))
      ∧ ∀ fuel, fuel ≤ n → get_greenhouse_scorecards responses fuel = none)
    ∧ ∀ (responses : Nat → HttpResponse),
      (∀ i, (responses i).status = 429) →
      ∀ fuel, get_greenhouse_scorecards responses fuel = none := by
  constructor
  · intro n responses h429 h200
    constructor
    · have h := getScorecardsAux_succeeds responses n 0 0
        (fun i hi => by simpa using h429 i hi) (by simpa using h200)
      simpa [get_greenhouse_scorecards] using h
    · intro fuel hf
      rw [get_greenhouse_scorecards]
      exact getScorecardsAux_allFail responses fuel 0 0
        (fun i hi => by simpa using h429 i (lt_of_lt_of_le hi hf))
  · intro responses hall fuel
    rw [get_greenhouse_scorecards]
    exact getScorecardsAux_allFail responses fuel 0 0
      (fun i _ => by simpa using hall i)

/-- Claim C6: on a 429 response, `get_greenhouse_scorecards` reads the
Retry-After header (10 when absent), sleeps for exactly that duration, and
retries the same request; with a 429 carrying Retry-After 3 followed by a
200, it has waited at least 3 time-units and returns the second response's
body. -/
theorem c6_rate_limit_retry
    (responses : Nat → HttpResponse) (ra : Option Int) (b0 : Json)
    (h0 : responses 0 = ⟨429, ra, b0⟩)
    (h1 : (responses 1).status = 200) :
    get_greenhouse_scorecards responses 2
      = some (.ok ⟨if (responses 1).body.truthy then (responses 1).body
                     else Json.arr [],
                   ra.getD 10, 2⟩)
    ∧ (ra = some 3 → (3 : Int) ≤ ra.getD 10) := by
  constructor
  · rw [get_greenhouse_scorecards, getScorecardsAux]
    simp only [h0]
    norm_num
    rw [getScorecardsAux]
    simp [h1]
  · intro h
    subst h
    simp

/-- The application record `app` is the first element of `apps` whose `id`
field equals `appId`. -/
def FirstMatch (appId : Json) (apps : List Json) (app : Json) : Prop :=
  ∃ (n : Nat) (h : n < apps.length),
    apps.get ⟨n, h⟩ = app
    ∧ app.getKey "id" = .ok appId
    ∧ ∀ (m : Nat) (hm : m < n), ∃ idv,
        (apps.get ⟨m, lt_trans hm h⟩).getKey "id" = .ok idv ∧ idv ≠ appId

theorem findApplication_firstMatch (appId : Json) :
    ∀ (apps : List Json) (app : Json),
    findApplication appId apps = .ok app → FirstMatch appId apps app := by
  intro apps
  induction apps with
  | nil => intro app h; simp [findApplication] at h
  | cons a rest ih =>
      intro app h
      rw [findApplication] at h
      cases hid : a.getKey "id" with
      | error e => rw [hid] at h; simp at h
      | ok i =>
          rw [hid, ok_bind] at h
          by_cases hbeq : Json.beq i appId = true
          · rw [if_pos hbeq] at h
            have hi : i = appId := (Json.beq_iff i appId).mp hbeq
            simp only [pure_except, Except.ok.injEq] at h
            subst h
            refine ⟨0, by simp, rfl, by rw [hid, hi], ?_⟩
            intro m hm
            omega
          · rw [if_neg hbeq] at h
            obtain ⟨n, hn, hget, hidapp, hprev⟩ := ih app h
            refine ⟨n + 1, by simpa using Nat.succ_lt_succ hn, by simpa using hget,
              hidapp, ?_⟩
            intro m hm
            cases m with
            | zero =>
                exact ⟨i, by simpa using hid,
                  fun hh => hbeq ((Json.beq_iff i appId).mpr hh)⟩
            | succ m' =>
                have hp := hprev m' (by omega)
                simpa using hp

theorem findApplication_noMatch (appId : Json) :
    ∀ (apps : List Json),
    (∀ app ∈ apps, ∃ idv, app.getKey "id" = .ok idv ∧ idv ≠ appId) →
    findApplication appId apps = .error "StopIteration" := by
  intro apps
  induction apps with
  | nil => intro _; rfl
  | cons a rest ih =>
      intro hall
      obtain ⟨idv, hid, hne⟩ := hall a (List.mem_cons_self _ _)
      rw [findApplication, hid, ok_bind,
        if_neg (fun hb => hne ((Json.beq_iff idv appId).mp hb))]
      exact ih (fun app ha => hall app (List.mem_cons_of_mem _ ha))

/-- The shape of one collated output record, as built by `collateBody` for
a candidate record, scorecard mapping and offer: the denormalized candidate
name is first name, a space, last name; the candidate metadata is company,
title, creation time and recruiter name; the application metadata is the
source's public name, the credited-to name, the job names and the
prospective department; and the scorecards are the formatted scorecards
stored under the offer's application id. -/
def CollatedRecordSpec (candidate : Json) (sd : JDict) (offer oid rec : Json) : Prop :=
  ∃ appId apps app fn ln company title created recruiter rname src source
    credited credited_to jobsL jobs prospective scL formatted,
    offer.getKey "application_id" = .ok appId
    ∧ dictGet sd appId = some (Json.arr scL)
    ∧ candidate.getKey "applications" = .ok (Json.arr apps)
    ∧ findApplication appId apps = .ok app
    ∧ candidate.getKey "first_name" = .ok (.str fn)
    ∧ candidate.getKey "last_name" = .ok (.str ln)
    ∧ candidate.getKey "company" = .ok company
    ∧ candidate.getKey "title" = .ok title
    ∧ candidate.getKey "created_at" = .ok created
    ∧ candidate.getKey "recruiter" = .ok recruiter
    ∧ keyOrNull recruiter "name" = .ok rname
    ∧ app.getKey "source" = .ok src
    ∧ keyOrNull src "public_name" = .ok source
    ∧ app.getKey "credited_to" = .ok credited
    ∧ (credited.truthy = true → credited.getKey "name" = .ok credited_to)
    ∧ (credited.truthy = false → credited_to = Json.null)
    ∧ app.getKey "jobs" = .ok (Json.arr jobsL)
    ∧ mapME (fun job => job.getKey "name") jobsL = .ok jobs
    ∧ app.getKey "prospective_department" = .ok prospective
    ∧ mapME format_scorecard scL = .ok formatted
    ∧ offer.getKey "id" = .ok oid
    ∧ rec = Json.obj [
        ("candidate_name", Json.str (fn ++ " " ++ ln)),
        ("candidate_data", Json.obj [
          ("company", company), ("title", title), ("created_at", created),
          ("recruiter_name", rname)]),
        ("application_id", appId),
        ("application_data", Json.obj [
          ("source", source), ("credited_to", credited_to),
          ("jobs", Json.arr jobs), ("prospective_department", prospective)]),
        ("scorecards_data", Json.arr formatted)]

set_option maxHeartbeats 3200000 in
theorem collateBody_ok_inv (candidate : Json) (sd : JDict) (offer oid rec : Json)
    (h : collateBody candidate sd offer = .ok (oid, rec)) :
    CollatedRecordSpec candidate sd offer oid rec := by
  rw [collateBody] at h
  cases h1 : offer.getKey "application_id" with
  | error e => rw [h1, error_bind] at h; exact Except.noConfusion h
  | ok appId =>
  rw [h1, ok_bind] at h
  cases h2 : dictGetE sd appId with
  | error e => rw [h2, error_bind] at h; exact Except.noConfusion h
  | ok scorecards =>
  rw [h2, ok_bind] at h
  cases h3 : candidate.getKey "applications" with
  | error e => rw [h3, error_bind] at h; exact Except.noConfusion h
  | ok appsJ =>
  rw [h3, ok_bind] at h
  cases h4 : appsJ.asArr with
  | error e => rw [h4, error_bind] at h; exact Except.noConfusion h
  | ok apps =>
  rw [h4, ok_bind] at h
  cases h5 : findApplication appId apps with
  | error e => rw [h5, error_bind] at h; exact Except.noConfusion h
  | ok app =>
  rw [h5, ok_bind] at h
  cases h6 : candidate.getKey "first_name" with
  | error e => rw [h6, error_bind] at h; exact Except.noConfusion h
  | ok fnJ =>
  rw [h6, ok_bind] at h
  cases h6b : fnJ.asStr with
  | error e => rw [h6b, error_bind] at h; exact Except.noConfusion h
  | ok fn =>
  rw [h6b, ok_bind] at h
  cases h7 : candidate.getKey "last_name" with
  | error e => rw [h7, error_bind] at h; exact Except.noConfusion h
  | ok lnJ =>
  rw [h7, ok_bind] at h
  cases h7b : lnJ.asStr with
  | error e => rw [h7b, error_bind] at h; exact Except.noConfusion h
  | ok ln =>
  rw [h7b, ok_bind] at h
  cases h8 : candidate.getKey "company" with
  | error e => rw [h8, error_bind] at h; exact Except.noConfusion h
  | ok company =>
  rw [h8, ok_bind] at h
  cases h9 : candidate.getKey "title" with
  | error e => rw [h9, error_bind] at h; exact Except.noConfusion h
  | ok title =>
  rw [h9, ok_bind] at h
  cases h10 : candidate.getKey "created_at" with
  | error e => rw [h10, error_bind] at h; exact Except.noConfusion h
  | ok created =>
  rw [h10, ok_bind] at h
  cases h11 : candidate.getKey "recruiter" with
  | error e => rw [h11, error_bind] at h; exact Except.noConfusion h
  | ok recruiter =>
  rw [h11, ok_bind] at h
  cases h12 : keyOrNull recruiter "name" with
  | error e => rw [h12, error_bind] at h; exact Except.noConfusion h
  | ok rname =>
  rw [h12, ok_bind] at h
  cases h13 : app.getKey "source" with
  | error e => rw [h13, error_bind] at h; exact Except.noConfusion h
  | ok src =>
  rw [h13, ok_bind] at h
  cases h14 : keyOrNull src "public_name" with
  | error e => rw [h14, error_bind] at h; exact Except.noConfusion h
  | ok source =>
  rw [h14, ok_bind] at h
  cases h15 : app.getKey "credited_to" with
  | error e => rw [h15, error_bind] at h; exact Except.noConfusion h
  | ok credited =>
  rw [h15, ok_bind] at h
  cases h16 : creditedName credited with
  | error e => rw [h16, error_bind] at h; exact Except.noConfusion h
  | ok credited_to =>
  rw [h16, ok_bind] at h
  cases h17 : app.getKey "jobs" with
  | error e => rw [h17, error_bind] at h; exact Except.noConfusion h
  | ok jobsJ =>
  rw [h17, ok_bind] at h
  cases h18 : jobsJ.asArr with
  | error e => rw [h18, error_bind] at h; exact Except.noConfusion h
  | ok jobsL =>
  rw [h18, ok_bind] at h
  cases h19 : mapME (fun job => job.getKey "name") jobsL with
  | error e => rw [h19, error_bind] at h; exact Except.noConfusion h
  | ok jobs =>
  rw [h19, ok_bind] at h
  cases h20 : app.getKey "prospective_department" with
  | error e => rw [h20, error_bind] at h; exact Except.noConfusion h
  | ok prospective =>
  rw [h20, ok_bind] at h
  cases h21 : scorecards.asArr with
  | error e => rw [h21, error_bind] at h; exact Except.noConfusion h
  | ok scL =>
  rw [h21, ok_bind] at h
  cases h22 : mapME format_scorecard scL with
  | error e => rw [h22, error_bind] at h; exact Except.noConfusion h
  | ok formatted =>
  rw [h22, ok_bind] at h
  cases h23 : offer.getKey "id" with
  | error e => rw [h23, error_bind] at h; exact Except.noConfusion h
  | ok oidv =>
  rw [h23, ok_bind] at h
  simp only [pure_except, Except.ok.injEq, Prod.mk.injEq] at h
  obtain ⟨hoid, hrec⟩ := h
  subst hoid
  have hsc : scorecards = Json.arr scL := (asArr_ok_iff scorecards scL).mp h21
  subst hsc
  have happs : appsJ = Json.arr apps := (asArr_ok_iff appsJ apps).mp h4
  subst happs
  have hjobs : jobsJ = Json.arr jobsL := (asArr_ok_iff jobsJ jobsL).mp h18
  subst hjobs
  have hfn : fnJ = Json.str fn := (asStr_ok_iff fnJ fn).mp h6b
  subst hfn
  have hln : lnJ = Json.str ln := (asStr_ok_iff lnJ ln).mp h7b
  subst hln
  refine ⟨appId, apps, app, fn, ln, company, title, created, recruiter, rname,
    src, source, credited, credited_to, jobsL, jobs, prospective, scL, formatted,
    h1, (dictGetE_ok_iff sd appId _).mp h2, h3, h5, h6, h7, h8, h9, h10, h11,
    h12, h13, h14, h15, ?_, ?_, h17, h19, h20, h22, h23, hrec.symm⟩
  · intro htr
    rw [creditedName, htr, if_pos rfl] at h16
    exact h16
  · intro htr
    rw [creditedName, htr] at h16
    rw [if_neg (by simp)] at h16
    simpa using h16.symm

theorem collateOffer_ok_inv (cd sd : JDict) (offer oid rec : Json)
    (h : collateOffer cd sd offer = .ok (oid, rec)) :
    ∃ cid candidate, offer.getKey "candidate_id" = .ok cid
      ∧ dictGet cd cid = some candidate
      ∧ collateBody candidate sd offer = .ok (oid, rec) := by
  rw [collateOffer] at h
  cases h1 : offer.getKey "candidate_id" with
  | error e => rw [h1, error_bind] at h; exact Except.noConfusion h
  | ok cid =>
      rw [h1, ok_bind] at h
      cases h2 : dictGetE cd cid with
      | error e => rw [h2, error_bind] at h; exact Except.noConfusion h
      | ok cand =>
          rw [h2, ok_bind] at h
          exact ⟨cid, cand, rfl, (dictGetE_ok_iff cd cid cand).mp h2, h⟩

theorem collate_cons_ok (cd sd : JDict) (o : Json) (rest : List Json)
    (acc out : JDict) (h : collate cd sd (o :: rest) acc = .ok out) :
    ∃ oid rec, collateOffer cd sd o = .ok (oid, rec)
      ∧ collate cd sd rest (dictInsert acc oid rec) = .ok out := by
  rw [collate] at h
  cases hp : collateOffer cd sd o with
  | error e => rw [hp, error_bind] at h; exact Except.noConfusion h
  | ok p =>
      obtain ⟨oid, rec⟩ := p
      rw [hp, ok_bind] at h
      refine ⟨oid, rec, hp ▸ rfl, ?_⟩
      exact h

theorem collate_all_ok (cd sd : JDict) :
    ∀ (offers : List Json) (acc out : JDict),
    collate cd sd offers acc = .ok out →
    ∀ o ∈ offers, ∃ oid rec, collateOffer cd sd o = .ok (oid, rec) := by
  intro offers
  induction offers with
  | nil => intro acc out _ o ho; cases ho
  | cons o2 rest ih =>
      intro acc out h o ho
      obtain ⟨oid, rec, hoff, hrest⟩ := collate_cons_ok cd sd o2 rest acc out h
      cases List.mem_cons.mp ho with
      | inl he => exact he ▸ ⟨oid, rec, hoff⟩
      | inr hm => exact ih (dictInsert acc oid rec) out hrest o hm

theorem collate_out_isSome (cd sd : JDict) :
    ∀ (offers : List Json) (acc out : JDict),
    collate cd sd offers acc = .ok out → ∀ k,
    (dictGet out k).isSome
      ↔ ((dictGet acc k).isSome
          ∨ ∃ o ∈ offers, ∃ rec, collateOffer cd sd o = .ok (k, rec)) := by
  intro offers
  induction offers with
  | nil =>
      intro acc out h k
      rw [collate] at h
      simp only [Except.ok.injEq] at h
      subst h
      simp
  | cons o rest ih =>
      intro acc out h k
      obtain ⟨oid, rec, hoff, hrest⟩ := collate_cons_ok cd sd o rest acc out h
      rw [ih (dictInsert acc oid rec) out hrest k]
      rw [dictGet_insert_isSome]
      constructor
      · intro hcase
        rcases hcase with (hk | hacc) | ⟨o', ho', rec', hoff'⟩
        · subst hk
          exact Or.inr ⟨o, List.mem_cons_self _ _, rec, hoff⟩
        · exact Or.inl hacc
        · exact Or.inr ⟨o', List.mem_cons_of_mem _ ho', rec', hoff'⟩
      · intro hcase
        rcases hcase with hacc | ⟨o', ho', rec', hoff'⟩
        · exact Or.inl (Or.inr hacc)
        · cases List.mem_cons.mp ho' with
          | inl he =>
              subst he
              rw [hoff] at hoff'
              simp only [Except.ok.injEq, Prod.mk.injEq] at hoff'
              exact Or.inl (Or.inl hoff'.1.symm)
          | inr hm => exact Or.inr ⟨o', hm, rec', hoff'⟩

theorem collate_nodup (cd sd : JDict) :
    ∀ (offers : List Json) (acc out : JDict),
    (dictKeys acc).Nodup → collate cd sd offers acc = .ok out →
    (dictKeys out).Nodup := by
  intro offers
  induction offers with
  | nil =>
      intro acc out hnd h
      rw [collate] at h
      simp only [Except.ok.injEq] at h
      subst h
      exact hnd
  | cons o rest ih =>
      intro acc out hnd h
      obtain ⟨oid, rec, _, hrest⟩ := collate_cons_ok cd sd o rest acc out h
      exact ih (dictInsert acc oid rec) out (dictKeys_insert_nodup acc oid rec hnd) hrest

theorem collate_error_after (cd sd : JDict) :
    ∀ (pre : List Json) (acc : JDict),
    (∀ o ∈ pre, ∃ p, collateOffer cd sd o = .ok p) →
    ∀ (o2 : Json) (post : List Json) (e : String),
    collateOffer cd sd o2 = .error e →
    collate cd sd (pre ++ o2 :: post) acc = .error e := by
  intro pre
  induction pre with
  | nil =>
      intro acc _ o2 post e herr
      rw [List.nil_append, collate, herr, error_bind]
  | cons o rest ih =>
      intro acc hpre o2 post e herr
      obtain ⟨p, hp⟩ := hpre o (List.mem_cons_self _ _)
      rw [List.cons_append, collate, hp, ok_bind]
      exact ih (dictInsert acc p.1 p.2)
        (fun x hx => hpre x (List.mem_cons_of_mem _ hx)) o2 post e herr

theorem CollatedRecordSpec_inv (candidate : Json) (sd : JDict) (offer oid rec : Json)
    (h : CollatedRecordSpec candidate sd offer oid rec) :
    (∃ appId apps app,
      offer.getKey "application_id" = .ok appId
      ∧ candidate.getKey "applications" = .ok (Json.arr apps)
      ∧ findApplication appId apps = .ok app
      ∧ FirstMatch appId apps app)
    ∧ offer.getKey "id" = .ok oid := by
  obtain ⟨appId, apps, app, fn, ln, c1, t1, cr1, r1, rn1, s1, so1, c2, ct2, jl,
    j2, pd, scl, fm, h1, h2, h3, h4, h5, h6, h7, h8, h9, h10, h11, h12, h13,
    h14, h15, h16, h17, h18, h19, h20, h21, h22⟩ := h
  exact ⟨⟨appId, apps, app, h1, h3, h4,
    findApplication_firstMatch appId apps app h4⟩, h21⟩

/-- Claim C1: when the collation stage succeeds, then for each accepted
offer it has looked up the offer's candidate under the offer's candidate id,
selected the first entry of that candidate's applications list whose id
equals the offer's application id (and `findApplication` fails whenever no
entry matches), and the output mapping holds exactly one entry per offer id,
whose record carries the denormalized candidate name, candidate metadata,
application metadata and formatted scorecards. -/
theorem c1_collation_contract
    (cd sd : JDict) (offers : List Json) (out : JDict)
    (hout : collate cd sd offers [] = .ok out) :
    (dictKeys out).Nodup
    ∧ (∀ k, (dictGet out k).isSome ↔ ∃ o ∈ offers, o.getKey "id" = .ok k)
    ∧ (∀ (apps : List Json) (appId : Json),
        (∀ app ∈ apps, ∃ idv, app.getKey "id" = .ok idv ∧ idv ≠ appId) →
        findApplication appId apps = .error "StopIteration")
    ∧ (∀ o ∈ offers, ∃ cid candidate oid rec,
        o.getKey "candidate_id" = .ok cid
        ∧ dictGet cd cid = some candidate
        ∧ collateOffer cd sd o = .ok (oid, rec)
        ∧ o.getKey "id" = .ok oid
        ∧ (dictGet out oid).isSome
        ∧ (∃ appId apps app,
            o.getKey "application_id" = .ok appId
            ∧ candidate.getKey "applications" = .ok (Json.arr apps)
            ∧ findApplication appId apps = .ok app
            ∧ FirstMatch appId apps app)
        ∧ CollatedRecordSpec candidate sd o oid rec) := by
  have hall := collate_all_ok cd sd offers [] out hout
  have hsome := collate_out_isSome cd sd offers [] out hout
  refine ⟨collate_nodup cd sd offers [] out (by simp [dictKeys]) hout, ?_, ?_, ?_⟩
  · intro k
    rw [hsome k]
    simp only [dictGet, Option.isSome_none, Bool.false_eq_true, false_or]
    constructor
    · rintro ⟨o, ho, rec, hoff⟩
      obtain ⟨cid, cand, hcid, hcand, hbody⟩ :=
        collateOffer_ok_inv cd sd o k rec hoff
      exact ⟨o, ho,
        (CollatedRecordSpec_inv cand sd o k rec
          (collateBody_ok_inv cand sd o k rec hbody)).2⟩
    · rintro ⟨o, ho, hid⟩
      obtain ⟨oid, rec, hoff⟩ := hall o ho
      obtain ⟨cid, cand, hcid, hcand, hbody⟩ :=
        collateOffer_ok_inv cd sd o oid rec hoff
      have hid2 := (CollatedRecordSpec_inv cand sd o oid rec
        (collateBody_ok_inv cand sd o oid rec hbody)).2
      rw [hid] at hid2
      simp only [Except.ok.injEq] at hid2
      subst hid2
      exact ⟨o, ho, rec, hoff⟩
  · exact fun apps appId hno => findApplication_noMatch appId apps hno
  · intro o ho
    obtain ⟨oid, rec, hoff⟩ := hall o ho
    obtain ⟨cid, cand, hcid, hcand, hbody⟩ :=
      collateOffer_ok_inv cd sd o oid rec hoff
    have hspec := collateBody_ok_inv cand sd o oid rec hbody
    have hinv := CollatedRecordSpec_inv cand sd o oid rec hspec
    refine ⟨cid, cand, oid, rec, hcid, hcand, hoff, hinv.2, ?_, hinv.1, hspec⟩
    rw [hsome oid]
    exact Or.inr ⟨o, ho, rec, hoff⟩

/-- Claim C4: when an offer's application id is absent from the scorecard
results mapping (as after a failed scorecard-fetch task), collation does not
treat it as zero scorecards: the dict lookup raises `KeyError` and the whole
collation stage aborts with that error. -/
theorem c4_missing_scorecard_fatal
    (cd sd : JDict) (offer cid candidate appId : Json)
    (hcid : offer.getKey "candidate_id" = .ok cid)
    (hcand : dictGet cd cid = some candidate)
    (happ : offer.getKey "application_id" = .ok appId)
    (hmiss : dictGet sd appId = none)
    (pre post : List Json) (acc : JDict)
    (hpre : ∀ o ∈ pre, ∃ p, collateOffer cd sd o = .ok p) :
    collateOffer cd sd offer = .error "KeyError: missing dict key"
    ∧ collate cd sd (pre ++ offer :: post) acc
        = .error "KeyError: missing dict key" := by
  have h2 : dictGetE cd cid = .ok candidate := by
    simp [dictGetE, hcand]
  have h3 : dictGetE sd appId = .error "KeyError: missing dict key" := by
    simp [dictGetE, hmiss]
  have hoff : collateOffer cd sd offer = .error "KeyError: missing dict key" := by
    rw [collateOffer, hcid, ok_bind, h2, ok_bind, collateBody, happ, ok_bind,
      h3, error_bind]
  exact ⟨hoff, collate_error_after cd sd pre acc hpre offer post _ hoff⟩

theorem keyOrNull_missing (fs : List (String × Json)) (k : String)
    (hno : ∀ p ∈ fs, p.1 ≠ k) : keyOrNull (Json.obj fs) k = .ok Json.null := by
  have hfind : fs.find? (fun p => p.1 == k) = none :=
    List.find?_eq_none.mpr (fun x hx => by simpa using hno x hx)
  simp [keyOrNull, hfind]

/-- Claim C5 (amended): a nested object reached through `keyOrNull` —
recruiter, interviewer, submitted_by, interview_step (key `name`) and
source (key `public_name`) — that lacks the key yields a null marker
rather than failing; in particular a candidate whose recruiter object has
no `name` field collates with `recruiter_name: null`.  `credited_to`,
however, is only null-defaulted when the credited_to value itself is
absent or falsy: a truthy credited_to object lacking `name` raises
`KeyError`. -/
theorem c5_null_defaulting :
    (∀ (fs : List (String × Json)) (k : String),
      (∀ p ∈ fs, p.1 ≠ k) → keyOrNull (Json.obj fs) k = .ok Json.null)
    ∧ (∀ (cd sd : JDict) (offer oid rec cid candidate : Json)
        (rfs : List (String × Json)),
        collateOffer cd sd offer = .ok (oid, rec) →
        offer.getKey "candidate_id" = .ok cid →
        dictGet cd cid = some candidate →
        candidate.getKey "recruiter" = .ok (Json.obj rfs) →
        (∀ p ∈ rfs, p.1 ≠ "name") →
        ∃ company title created,
          rec.getKey "candidate_data" = .ok (Json.obj
            [("company", company), ("title", title), ("created_at", created),
             ("recruiter_name", Json.null)]))
    ∧ (∀ gs : List (String × Json), gs ≠ [] → (∀ p ∈ gs, p.1 ≠ "name") →
        creditedName (Json.obj gs) = .error "KeyError: name")
    ∧ (∀ (sc created interview overall attrs ratings : Json)
        (istep subBy ivr : List (String × Json)),
        sc.getKey "created_at" = .ok created →
        sc.getKey "interview" = .ok interview →
        sc.getKey "interview_step" = .ok (Json.obj istep) →
        sc.getKey "submitted_by" = .ok (Json.obj subBy) →
        sc.getKey "interviewer" = .ok (Json.obj ivr) →
        sc.getKey "overall_recommendation" = .ok overall →
        sc.getKey "attributes" = .ok attrs →
        sc.getKey "ratings" = .ok ratings →
        sc.getKey "questions" = .ok (Json.arr []) →
        (∀ p ∈ istep, p.1 ≠ "name") →
        (∀ p ∈ subBy, p.1 ≠ "name") →
        (∀ p ∈ ivr, p.1 ≠ "name") →
        format_scorecard sc = .ok (Json.obj [
          ("created_at", created), ("interview", interview),
          ("interview_step", Json.null), ("submitted_by", Json.null),
          ("interviewer", Json.null), ("overall_recommendation", overall),
          ("attributes", attrs), ("ratings", ratings),
          ("questions", Json.arr [])])) := by
  refine ⟨keyOrNull_missing, ?_, ?_, ?_⟩
  · intro cd sd offer oid rec cid candidate rfs hoff hcid2 hcand2 hrecr hnoname
    obtain ⟨cid', cand', hcid', hcand', hbody⟩ :=
      collateOffer_ok_inv cd sd offer oid rec hoff
    rw [hcid2] at hcid'
    simp only [Except.ok.injEq] at hcid'
    subst hcid'
    rw [hcand2] at hcand'
    simp only [Option.some.injEq] at hcand'
    subst hcand'
    obtain ⟨appId, apps, app, fn, ln, company, title, created, recruiter, rname,
      src, source, credited, credited_to, jobsL, jobs, prospective, scL,
      formatted, h1, h2, h3, h4, h5, h6, h7, h8, h9, h10, h11, h12, h13, h14,
      h15, h16, h17, h18, h19, h20, h21, h22⟩ := collateBody_ok_inv _ _ _ _ _ hbody
    rw [hrecr] at h10
    simp only [Except.ok.injEq] at h10
    subst h10
    rw [keyOrNull_missing rfs "name" hnoname] at h11
    simp only [Except.ok.injEq] at h11
    subst h11
    subst h22
    refine ⟨company, title, created, ?_⟩
    simp [Json.getKey]
  · intro gs hne hno
    have htr : (Json.obj gs).truthy = true := by
      simp [Json.truthy, hne]
    have hfind : gs.find? (fun p => p.1 == "name") = none :=
      List.find?_eq_none.mpr (fun x hx => by simpa using hno x hx)
    rw [creditedName, htr, if_pos rfl]
    simp [Json.getKey, hfind]
  · intro sc created interview overall attrs ratings istep subBy ivr
      h1 h2 h3 h4 h5 h6 h7 h8 h9 hn1 hn2 hn3
    rw [format_scorecard, h1, ok_bind, h2, ok_bind, h3, ok_bind,
      keyOrNull_missing istep "name" hn1, ok_bind, h4, ok_bind,
      keyOrNull_missing subBy "name" hn2, ok_bind, h5, ok_bind,
      keyOrNull_missing ivr "name" hn3, ok_bind, h6, ok_bind, h7, ok_bind,
      h8, ok_bind, h9, ok_bind]
    simp [Json.asArr, mapME]

/-- Fixture: a well-formed application sub-record. -/
def appA : Json := .obj [("id", .num 10),
  ("source", .obj [("public_name", .str "Referral")]),
  ("credited_to", .null),
  ("jobs", .arr [.obj [("name", .str "Engineer")]]),
  ("prospective_department", .null)]

/-- Fixture: a well-formed candidate record holding `appA`. -/
def candA : Json := .obj [("id", .num 100), ("first_name", .str "Ada"),
  ("last_name", .str "Lovelace"), ("company", .str "Acme"),
  ("title", .str "Dev"), ("created_at", .str "2023-08-01"),
  ("recruiter", .obj [("name", .str "Rex")]),
  ("applications", .arr [appA])]

/-- Fixture: an accepted offer for `candA` / `appA`. -/
def offerA : Json := .obj [("id", .num 1), ("application_id", .num 10),
  ("candidate_id", .num 100)]

/-- Fixture: the candidate mapping for `offerA`. -/
def cdA : JDict := [(Json.num 100, candA)]

/-- Fixture: the scorecard mapping for `offerA` (zero scorecards). -/
def sdA : JDict := [(Json.num 10, Json.arr [])]

/-- Fixture: the collated record produced for `offerA`. -/
def recA : Json := .obj [
  ("candidate_name", .str "Ada Lovelace"),
  ("candidate_data", .obj [("company", .str "Acme"), ("title", .str "Dev"),
    ("created_at", .str "2023-08-01"), ("recruiter_name", .str "Rex")]),
  ("application_id", .num 10),
  ("application_data", .obj [("source", .str "Referral"),
    ("credited_to", Json.null), ("jobs", .arr [.str "Engineer"]),
    ("prospective_department", Json.null)]),
  ("scorecards_data", .arr [])]

/-- Fixture: the output mapping for the single offer `offerA`. -/
def outA : JDict := [(Json.num 1, recA)]

theorem c1_collation_contract_witness : (dictKeys outA).Nodup :=
  (c1_collation_contract cdA sdA [offerA] outA
    (by
      simp [collate, collateOffer, collateBody, cdA, sdA, offerA, candA, appA,
        recA, outA, Json.getKey, dictGetE, dictGet, dictInsert, Json.beq,
        findApplication, keyOrNull, creditedName, Json.truthy, Json.asArr,
        Json.asStr, mapME])).1

/-- Fixture: a response function serving two non-empty offer pages and then
an empty page. -/
def respPagesW : Nat → HttpResponse := fun p =>
  if p = 1 then ⟨200, none, .arr [.num 1]⟩
  else if p = 2 then ⟨200, none, .arr [.num 2]⟩
  else ⟨200, none, .arr []⟩

/-- Fixture: the two pages served by `respPagesW`. -/
def pagesW : List (List Json) := [[.num 1], [.num 2]]

theorem c2_paginated_offer_fetch_witness :
    get_greenhouse_accepted_offers respPagesW (pagesW.length + 1)
      = some (List.range' 1 (pagesW.length + 1), .ok pagesW.flatten) :=
  (c2_paginated_offer_fetch pagesW respPagesW
    (by
      intro p hp
      simp [pagesW] at hp
      rcases hp with h | h <;> simp [h])
    (by
      intro i h
      simp [pagesW] at h
      interval_cases i <;> rfl)
    (by rfl)).1

/-- Fixture: a per-application fetch outcome in which only application id 2
raises. -/
def fetchW : Json → Except String Json := fun a =>
  if a = Json.num 2 then .error "boom" else .ok (Json.arr [])

theorem c3_partial_failure_witness :
    dictGet (buildScorecardData fetchW [Json.num 1, Json.num 2, Json.num 3] [])
      (Json.num 2) = none :=
  (c3_partial_failure fetchW [Json.num 1, Json.num 2, Json.num 3] (Json.num 2)
    "boom" (by simp [fetchW])
    (by
      intro a h
      exact ⟨Json.arr [], by simp [fetchW, h]⟩)).1

theorem c4_missing_scorecard_fatal_witness :
    collateOffer cdA [] offerA = .error "KeyError: missing dict key" :=
  (c4_missing_scorecard_fatal cdA [] offerA (Json.num 100) candA (Json.num 10)
    (by simp [offerA, Json.getKey])
    (by simp [cdA, dictGet, Json.beq])
    (by simp [offerA, Json.getKey])
    (by simp [dictGet])
    [] [] [] (by simp)).1

/-- Fixture: an application record whose `credited_to` object is non-empty
but has no `name` field. -/
def appB : Json := .obj [("id", .num 10), ("source", .obj []),
  ("credited_to", .obj [("id", .num 5)]), ("jobs", .arr []),
  ("prospective_department", .null)]

/-- Fixture: a candidate record holding `appB`, with a recruiter object
that has no `name` field. -/
def candB : Json := .obj [("id", .num 100), ("first_name", .str "A"),
  ("last_name", .str "B"), ("company", .null), ("title", .null),
  ("created_at", .null), ("recruiter", .obj []),
  ("applications", .arr [appB])]

/-- Fixture: an accepted offer for `candB` / `appB`. -/
def offerB : Json := .obj [("id", .num 1), ("application_id", .num 10),
  ("candidate_id", .num 100)]

/-- Fixture: candidate mapping for `offerB`. -/
def cdB : JDict := [(Json.num 100, candB)]

/-- Fixture: scorecard mapping for `offerB`. -/
def sdB : JDict := [(Json.num 10, Json.arr [])]

theorem c5_counterexample_credited_to :
    collateOffer cdB sdB offerB = .error "KeyError: name" := by
  simp [collateOffer, collateBody, cdB, sdB, offerB, candB, appB,
    Json.getKey, dictGetE, dictGet, Json.beq, findApplication, keyOrNull,
    creditedName, Json.truthy, Json.asArr, Json.asStr, mapME]

theorem c5_null_defaulting_witness :
    keyOrNull (Json.obj [("id", Json.num 5)]) "name" = .ok Json.null :=
  c5_null_defaulting.1 [("id", Json.num 5)] "name" (by simp)

/-- Fixture: a 429 response with Retry-After 3, then a 200 response. -/
def respRetryW : Nat → HttpResponse := fun n =>
  if n = 0 then ⟨429, some 3, Json.null⟩ else ⟨200, none, .arr [.num 7]⟩

theorem c6_rate_limit_retry_witness :
    get_greenhouse_scorecards respRetryW 2
      = some (.ok ⟨if (respRetryW 1).body.truthy then (respRetryW 1).body
                     else Json.arr [],
                   (some (3 : Int)).getD 10, 2⟩) :=
  (c6_rate_limit_retry respRetryW (some 3) Json.null rfl rfl).1

/-- Fixture: two 429 responses and then a 200 response. -/
def respTwo429W : Nat → HttpResponse := fun i =>
  if i < 2 then ⟨429, none, Json.null⟩ else ⟨200, none, Json.null⟩

theorem c7_unbounded_retry_witness :
    get_greenhouse_scorecards respTwo429W 2 = none :=
  (c7_unbounded_retry.1 2 respTwo429W
    (by
      intro i hi
      simp [respTwo429W, hi])
    (by simp [respTwo429W])).2 2 (le_refl 2)

/-- Fixture: a candidates API that always answers an empty page. -/
def capiW : List Int → Nat → HttpResponse := fun _ _ => ⟨200, none, .arr []⟩

/-- Fixture: no non-empty candidate pages for any chunk. -/
def pagesOfW : List Int → List (List Json) := fun _ => []

theorem c8_candidate_chunking_witness :
    get_greenhouse_candidates capiW [(7 : Int)] 1
      = some (.ok (((chunkList [(7 : Int)]).map
          (fun c => (pagesOfW c).flatten)).flatten)) :=
  (c8_candidate_chunking [(7 : Int)] capiW pagesOfW 1
    (by intro c hc p hp; simp [pagesOfW] at hp)
    (by intro c hc i h; simp [pagesOfW] at h)
    (by intro c hc; rfl)
    (by intro c hc; simp [pagesOfW])).2.2.2

theorem c9_order_determinism_witness :
    collate [] (buildScorecardData fetchW [Json.num 1, Json.num 2] []) [] []
      = collate [] (buildScorecardData fetchW [Json.num 2, Json.num 1] []) [] [] :=
  (c9_order_determinism fetchW [Json.num 1, Json.num 2] [Json.num 2, Json.num 1]
    (List.Perm.swap (Json.num 2) (Json.num 1) []) [] [] []).2

/-- Fixture: an older and a newer candidate record sharing id 5. -/
def candOld : Json := .obj [("id", .num 5), ("first_name", .str "Old")]

/-- Fixture: the later record with the same id as `candOld`. -/
def candNew : Json := .obj [("id", .num 5), ("first_name", .str "New")]

/-- Fixture: an offer whose candidate id is the duplicated id 5. -/
def offerDup : Json := .obj [("candidate_id", .num 5)]

theorem c10_last_candidate_wins_witness :
    dictGet [(Json.num 5, candNew)] (Json.num 5) = some candNew :=
  (c10_last_candidate_wins [candOld, candNew] [(Json.num 5, candNew)]
    (by simp [buildCandidateData, candOld, candNew, Json.getKey, dictInsert,
      Json.beq])
    (Json.num 5) candNew
    (by simp [idIs, candOld, candNew, Json.getKey, Json.beq])
    [] offerDup
    (by simp [offerDup, Json.getKey])).1
